import Mathlib

/-!
# Verification of the plonky gate layer

A shallow embedding of the concrete gates of the plonky arithmetization core
(`Base4SumGate`, `BufferGate`, `RescueStepAGate`) together with proofs of the
specification's testable properties: native/recursive evaluation equivalence,
the base-4 accumulator recurrence, range-check soundness, the Rescue round
constraints and witness generation, generator purity and frame conditions,
and the declared constraint-degree bounds.

The scalar field is kept abstract: definitions are stated over an arbitrary
commutative ring `F` (every operation the gates use — add, sub, mul, natural
powers, small-integer embedding — is ring arithmetic), and field-specific
facts are assumed via `[Field F]` in the theorems that need them.  Quantities
defined outside the excerpted gate files (the sponge width, the MDS matrix,
the gate's selector-prefix length, and 5th-root extraction) are taken as
parameters or modelled from the spec, as noted at each definition.
-/

namespace Plonky

/-- A wire: one witness cell, identified by `(gate row, input slot)` —
the `Wire { gate, input }` struct. -/
structure Wire where
  gate : Nat
  input : Nat
deriving DecidableEq, Repr

/-- A partial witness: a sparse assignment of field values to wires, built
incrementally by `set_wire` calls.  Modelled as an association list in
insertion order (the source uses a hash map; the list records exactly which
wires are assigned and with which values). -/
abbrev PartialWitness (F : Type) := List (Wire × F)

namespace PartialWitness

/-- `PartialWitness::new()`: the empty witness. -/
def new {F : Type} : PartialWitness F := []

/-- `PartialWitness::get_wire`: look up a wire's value; `none` when the wire
is unset (the source panics there, which callers model as `Option`). -/
def get_wire {F : Type} (pw : PartialWitness F) (w : Wire) : Option F :=
  (pw.find? (fun p => decide (p.1 = w))).map (fun p => p.2)

/-- `PartialWitness::set_wire`: record one wire assignment. -/
def set_wire {F : Type} (pw : PartialWitness F) (w : Wire) (v : F) :
    PartialWitness F :=
  pw ++ [(w, v)]

end PartialWitness

/-- In-circuit expressions: the syntax trees a gate's
`evaluate_unfiltered_recursively` builds through the `CircuitBuilder`
primitives it calls — constant injection (`constant_wire`,
`constant_wire_u32`, `one_wire`), `add`, `sub`, `mul`, fused multiply-add
(`mul_add`) and constant-exponent power (`exp_constant_usize`). -/
inductive Expr (F : Type) where
  | const (c : F)
  | add (a b : Expr F)
  | sub (a b : Expr F)
  | mul (a b : Expr F)
  | mulAdd (a b c : Expr F)
  | pow (a : Expr F) (n : Nat)

/-- Fully evaluate an expression tree, interpreting each builder primitive
as the corresponding field operation (`mul_add a b c` is `a * b + c`). -/
def Expr.eval {F : Type} [CommRing F] : Expr F → F
  | .const c => c
  | .add a b => a.eval + b.eval
  | .sub a b => a.eval - b.eval
  | .mul a b => a.eval * b.eval
  | .mulAdd a b c => a.eval * b.eval + c.eval
  | .pow a n => a.eval ^ n

/-- The external field capability `double`. -/
def double {F : Type} [CommRing F] (x : F) : F := x + x

/-- The external field capability `quadruple` (two doublings), used by
`Base4SumGate::evaluate_unfiltered`. -/
def quadruple {F : Type} [CommRing F] (x : F) : F := double (double x)

namespace Base4SumGate

/-- `Base4SumGate::WIRE_ACC_OLD`. -/
def WIRE_ACC_OLD : Nat := 0

/-- `Base4SumGate::WIRE_ACC_NEW`. -/
def WIRE_ACC_NEW : Nat := 1

/-- `Base4SumGate::WIRE_LIMB_0`. -/
def WIRE_LIMB_0 : Nat := 2

/-- `Base4SumGate::NUM_LIMBS`. -/
def NUM_LIMBS : Nat := 7

/-- `Base4SumGate::evaluate_unfiltered`: reads `acc_old`, `acc_new` and the
seven limbs from the local wires, folds the base-4 accumulator recurrence
`acc := quadruple acc + limb`, and returns the recurrence residual followed
by one quartic range-check residual
`limb * (limb - 1) * (limb - 2) * (limb - 3)` per limb.  Wire arrays are
modelled as total functions from slot index to value; the constant, right-row
and below-row arrays are received but unused, as in the source. -/
def evaluate_unfiltered {F : Type} [CommRing F]
    (_local_constant_values local_wire_values
      _right_wire_values _below_wire_values : Nat → F) : List F :=
  let acc_old := local_wire_values WIRE_ACC_OLD
  let acc_new := local_wire_values WIRE_ACC_NEW
  let limbs := (List.range NUM_LIMBS).map
    (fun i => local_wire_values (WIRE_LIMB_0 + i))
  let computed_acc_new :=
    limbs.foldl (fun acc limb => quadruple acc + limb) acc_old
  (computed_acc_new - acc_new) ::
    limbs.map (fun limb =>
      (List.range 4).foldl (fun product j => product * (limb - ((j : Nat) : F))) 1)

/-- `Base4SumGate::evaluate_unfiltered_recursively`: the same computation
expressed through the builder primitives — `constant_wire_u32 4`, `mul`,
`add` for the recurrence, and `one_wire`, `constant_wire_u32 j`, `sub`,
`mul` for the range residuals. -/
def evaluate_unfiltered_recursively {F : Type} [CommRing F]
    (_local_constant_values local_wire_values
      _right_wire_values _below_wire_values : Nat → Expr F) : List (Expr F) :=
  let four : Expr F := .const ((4 : Nat) : F)
  let acc_old := local_wire_values WIRE_ACC_OLD
  let acc_new := local_wire_values WIRE_ACC_NEW
  let limbs := (List.range NUM_LIMBS).map
    (fun i => local_wire_values (WIRE_LIMB_0 + i))
  let computed_acc_new :=
    limbs.foldl (fun acc limb => Expr.add (Expr.mul acc four) limb) acc_old
  Expr.sub computed_acc_new acc_new ::
    limbs.map (fun limb =>
      (List.range 4).foldl
        (fun product j => Expr.mul product (Expr.sub limb (.const ((j : Nat) : F))))
        (.const 1))

/-- `Base4SumGate`'s `WitnessGenerator::dependencies`: empty. -/
def dependencies : List Wire := []

/-- `Base4SumGate`'s `WitnessGenerator::generate`: a no-op (decomposition is
generated globally, not per gate). -/
def generate {F : Type} (_constants : Nat → Nat → F)
    (_witness : PartialWitness F) : PartialWitness F :=
  PartialWitness.new

end Base4SumGate

namespace BufferGate

/-- `BufferGate::degree`. -/
def degree : Nat := 0

/-- `BufferGate::num_constants`. -/
def num_constants : Nat := 0

/-- `BufferGate::evaluate_unfiltered`: no constraints. -/
def evaluate_unfiltered {F : Type} [CommRing F]
    (_local_constant_values _local_wire_values
      _right_wire_values _below_wire_values : Nat → F) : List F :=
  []

/-- `BufferGate::evaluate_unfiltered_recursively`: no constraints. -/
def evaluate_unfiltered_recursively {F : Type} [CommRing F]
    (_local_constant_values _local_wire_values
      _right_wire_values _below_wire_values : Nat → Expr F) : List (Expr F) :=
  []

/-- `BufferGate`'s `WitnessGenerator::dependencies`: empty. -/
def dependencies : List Wire := []

/-- `BufferGate`'s `WitnessGenerator::generate`: returns an empty witness. -/
def generate {F : Type} (_constants : Nat → Nat → F)
    (_witness : PartialWitness F) : PartialWitness F :=
  PartialWitness.new

end BufferGate

/-- Modelled from the spec: `RESCUE_SPONGE_WIDTH`, the Rescue permutation's
fixed state width, is defined outside the excerpted gate files.  The spec
fixes only "a fixed state width"; `RescueStepAGate::num_constants` being 4
(one round constant per state slot) pins it to 4. -/
def RESCUE_SPONGE_WIDTH : Nat := 4

namespace RescueStepAGate

/-- `RescueStepAGate::wire_acc`: the `i`th accumulator wire slot. -/
def wire_acc (i : Nat) : Nat := i

/-- `RescueStepAGate::wire_root`: the `i`th root wire slot. -/
def wire_root (i : Nat) : Nat := RESCUE_SPONGE_WIDTH + i

/-- `RescueStepAGate::degree`. -/
def degree : Nat := 5

/-- `RescueStepAGate::num_constants`. -/
def num_constants : Nat := 4

/-- `RescueStepAGate::evaluate_unfiltered`: for each state slot `i` pushes
the S-box residual `roots[i]^5 - ins[i]` and the affine-mixing residual
`(round_constant_i + Σ_j mds[i][j] * roots[j]) - outs[i]`, with `ins` read
from the local accumulator wires, `roots` from the local root wires, `outs`
from the next row's accumulator wires, and round constant `i` at local
constant slot `pfxLen + i`.  The prefix length (from
`GateCollection::prefix`) and the MDS matrix (`mds_matrix`) live outside the
excerpted files and are received as parameters. -/
def evaluate_unfiltered {F : Type} [CommRing F]
    (pfxLen : Nat) (mds : Nat → Nat → F)
    (local_constant_values local_wire_values right_wire_values
      _below_wire_values : Nat → F) : List F :=
  let ins := fun i => local_wire_values (wire_acc i)
  let outs := fun i => right_wire_values (wire_acc i)
  let roots := fun i => local_wire_values (wire_root i)
  (List.range RESCUE_SPONGE_WIDTH).flatMap (fun i =>
    [roots i ^ 5 - ins i,
      (List.range RESCUE_SPONGE_WIDTH).foldl
        (fun acc j => acc + mds i j * roots j)
        (local_constant_values (pfxLen + i)) - outs i])

/-- `RescueStepAGate::evaluate_unfiltered_recursively`: the same residuals
built through the builder — `exp_constant_usize roots[i] 5`, `sub`, and a
`mul_add` chain `mul_add (constant_wire mds[i][j]) roots[j] acc` starting
from the round-constant target. -/
def evaluate_unfiltered_recursively {F : Type} [CommRing F]
    (pfxLen : Nat) (mds : Nat → Nat → F)
    (local_constant_values local_wire_values right_wire_values
      _below_wire_values : Nat → Expr F) : List (Expr F) :=
  let ins := fun i => local_wire_values (wire_acc i)
  let outs := fun i => right_wire_values (wire_acc i)
  let roots := fun i => local_wire_values (wire_root i)
  (List.range RESCUE_SPONGE_WIDTH).flatMap (fun i =>
    [Expr.sub (Expr.pow (roots i) 5) (ins i),
      Expr.sub
        ((List.range RESCUE_SPONGE_WIDTH).foldl
          (fun acc j => Expr.mulAdd (Expr.const (mds i j)) (roots j) acc)
          (local_constant_values (pfxLen + i)))
        (outs i)])

/-- `RescueStepAGate`'s `WitnessGenerator::dependencies`: the gate's own
row's `RESCUE_SPONGE_WIDTH` accumulator wires. -/
def dependencies (index : Nat) : List Wire :=
  (List.range RESCUE_SPONGE_WIDTH).map (fun i => ⟨index, wire_acc i⟩)

/-- `RescueStepAGate`'s `WitnessGenerator::generate`: reads the resolved
accumulator wires of its own row, computes each root with the external
`kth_root_u32 5` capability (parameter `r5`; the source panics when a
dependency is unresolved, modelled as `none`), then writes, per slot `i`,
the root into the local root wire and the affine-mixed output
`constants[index][pfxLen + i] + Σ_j mds[i][j] * roots[j]` into the next
row's accumulator wire `i`. -/
def generate {F : Type} [CommRing F]
    (r5 : F → F) (pfxLen index : Nat) (mds : Nat → Nat → F)
    (constants : Nat → Nat → F) (witness : PartialWitness F) :
    Option (PartialWitness F) := do
  let ins ← (List.range RESCUE_SPONGE_WIDTH).mapM
    (fun i => witness.get_wire ⟨index, wire_acc i⟩)
  let roots := ins.map r5
  some ((List.range RESCUE_SPONGE_WIDTH).foldl (fun result i =>
    (result.set_wire ⟨index, wire_root i⟩ (roots.getD i 0)).set_wire
      ⟨index + 1, wire_acc i⟩
      ((List.range RESCUE_SPONGE_WIDTH).foldl
        (fun acc j => acc + mds i j * roots.getD j 0)
        (constants index (pfxLen + i))))
    PartialWitness.new)

end RescueStepAGate

end Plonky

namespace Plonky

lemma range_seven : List.range 7 = [0, 1, 2, 3, 4, 5, 6] := rfl

lemma range_four : List.range 4 = [0, 1, 2, 3] := rfl

lemma quadruple_eq {F : Type} [CommRing F] (x : F) : quadruple x = 4 * x := by
  unfold quadruple double
  ring

/-- The accumulation gate's constraint list, written out entry by entry. -/
lemma Base4SumGate.evaluate_unfiltered_eq {F : Type} [CommRing F]
    (lc lw rw bw : Nat → F) :
    Base4SumGate.evaluate_unfiltered lc lw rw bw =
      (quadruple (quadruple (quadruple (quadruple (quadruple (quadruple
          (quadruple (lw 0) + lw 2) + lw 3) + lw 4) + lw 5) + lw 6) + lw 7)
        + lw 8 - lw 1) ::
      [lw 2, lw 3, lw 4, lw 5, lw 6, lw 7, lw 8].map (fun x =>
        x * (x - 1) * (x - 2) * (x - 3)) := by
  simp [Base4SumGate.evaluate_unfiltered, Base4SumGate.WIRE_ACC_OLD,
    Base4SumGate.WIRE_ACC_NEW, Base4SumGate.WIRE_LIMB_0, Base4SumGate.NUM_LIMBS,
    range_seven, range_four]

/-- A limb drawn from `{0, 1, 2, 3}` satisfies the quartic range residual. -/
lemma limb_residual_zero {F : Type} [CommRing F] (x : F)
    (hx : ∃ d, d < 4 ∧ x = ((d : Nat) : F)) :
    x * (x - 1) * (x - 2) * (x - 3) = 0 := by
  obtain ⟨d, hd, rfl⟩ := hx
  interval_cases d <;> norm_num

/-- C1: for every gate variant and all expression-valued inputs (hence for
every concrete assignment of field values to the constant and wire inputs),
fully evaluating the expression tree built by
`evaluate_unfiltered_recursively` — with the builder's primitives interpreted
as the corresponding field operations — yields exactly the list computed by
the native `evaluate_unfiltered` on the evaluated inputs: equal length,
equal entries, same order. -/
theorem native_recursive_equivalence {F : Type} [Field F]
    (pfxLen : Nat) (mds : Nat → Nat → F) (lc lw rw bw : Nat → Expr F) :
    ((Base4SumGate.evaluate_unfiltered_recursively lc lw rw bw).map Expr.eval =
        Base4SumGate.evaluate_unfiltered (fun i => (lc i).eval)
          (fun i => (lw i).eval) (fun i => (rw i).eval) (fun i => (bw i).eval)) ∧
      ((RescueStepAGate.evaluate_unfiltered_recursively pfxLen mds lc lw rw bw).map
          Expr.eval =
        RescueStepAGate.evaluate_unfiltered pfxLen mds (fun i => (lc i).eval)
          (fun i => (lw i).eval) (fun i => (rw i).eval) (fun i => (bw i).eval)) ∧
      ((BufferGate.evaluate_unfiltered_recursively lc lw rw bw).map Expr.eval =
        BufferGate.evaluate_unfiltered (fun i => (lc i).eval)
          (fun i => (lw i).eval) (fun i => (rw i).eval) (fun i => (bw i).eval)) := by
  refine ⟨?_, ?_, rfl⟩
  · simp only [Base4SumGate.evaluate_unfiltered_recursively,
      Base4SumGate.evaluate_unfiltered, Base4SumGate.WIRE_ACC_OLD,
      Base4SumGate.WIRE_ACC_NEW, Base4SumGate.WIRE_LIMB_0, Base4SumGate.NUM_LIMBS,
      range_seven, range_four, List.map_cons, List.map_nil, List.foldl_cons,
      List.foldl_nil, Expr.eval, List.cons.injEq, and_true, quadruple_eq,
      Nat.cast_ofNat, Nat.cast_zero, Nat.cast_one]
    ring
  · simp only [RescueStepAGate.evaluate_unfiltered_recursively,
      RescueStepAGate.evaluate_unfiltered, RescueStepAGate.wire_acc,
      RescueStepAGate.wire_root, RESCUE_SPONGE_WIDTH, range_four,
      List.flatMap_cons, List.flatMap_nil, List.append_nil, List.map_append,
      List.cons_append, List.nil_append, List.map_cons, List.map_nil,
      List.foldl_cons, List.foldl_nil, Expr.eval, List.cons.injEq, and_true,
      Nat.cast_ofNat, Nat.cast_zero, Nat.cast_one]
    repeat' apply And.intro
    all_goals ring_nf

/-- C2: when each of the seven limb wires carries a value from `{0,1,2,3}`,
the accumulation gate's native evaluation is all-zero exactly when `acc_new`
(wire 1) equals the base-4 Horner accumulation of `acc_old` (wire 0) and the
limbs in order. -/
theorem base4_recurrence_correctness {F : Type} [Field F] (lc lw rw bw : Nat → F)
    (hlimbs : ∀ k, k < 7 → ∃ d, d < 4 ∧ lw (2 + k) = ((d : Nat) : F)) :
    ((∀ x ∈ Base4SumGate.evaluate_unfiltered lc lw rw bw, x = 0) ↔
      lw 1 = List.foldl (fun acc limb => 4 * acc + limb) (lw 0)
        [lw 2, lw 3, lw 4, lw 5, lw 6, lw 7, lw 8]) := by
  have h2 := limb_residual_zero (lw 2) (hlimbs 0 (by norm_num))
  have h3 := limb_residual_zero (lw 3) (hlimbs 1 (by norm_num))
  have h4 := limb_residual_zero (lw 4) (hlimbs 2 (by norm_num))
  have h5 := limb_residual_zero (lw 5) (hlimbs 3 (by norm_num))
  have h6 := limb_residual_zero (lw 6) (hlimbs 4 (by norm_num))
  have h7 := limb_residual_zero (lw 7) (hlimbs 5 (by norm_num))
  have h8 := limb_residual_zero (lw 8) (hlimbs 6 (by norm_num))
  rw [Base4SumGate.evaluate_unfiltered_eq]
  simp only [List.map_cons, List.map_nil, List.mem_cons, List.not_mem_nil, or_false,
    forall_eq_or_imp, forall_eq, h2, h3, h4, h5, h6, h7, h8, and_true,
    sub_eq_zero, List.foldl_cons, List.foldl_nil, quadruple_eq]
  exact eq_comm

/-- `5` is prime, so `ZMod 5` is a field usable for concrete witnesses. -/
instance : Fact (Nat.Prime 5) := ⟨by norm_num⟩

/-- A concrete wire assignment over `ZMod 5`: `acc_old = 0`, every limb `3`,
and `acc_new = 3` (the Horner value `4^7 - 1` reduced mod 5). -/
def lwC : Nat → ZMod 5 := fun i => if i = 0 then 0 else 3

/-- C2, witnessed at a concrete input. -/
theorem base4_recurrence_correctness_witness :
    (∀ k, k < 7 → ∃ d, d < 4 ∧ lwC (2 + k) = ((d : Nat) : ZMod 5)) ∧
      ((∀ x ∈ Base4SumGate.evaluate_unfiltered lwC lwC lwC lwC, x = 0) ↔
        lwC 1 = List.foldl (fun acc limb => 4 * acc + limb) (lwC 0)
          [lwC 2, lwC 3, lwC 4, lwC 5, lwC 6, lwC 7, lwC 8]) :=
  ⟨fun k _hk => ⟨3, by norm_num, by simp [lwC]⟩,
    base4_recurrence_correctness lwC lwC lwC lwC
      (fun k _hk => ⟨3, by norm_num, by simp [lwC]⟩)⟩

/-- C3: the Rescue step-A gate's native evaluation is all-zero exactly when,
for each state slot `i`, the root wire's value is a 5th root of the input
wire's value and the next row's accumulator wire equals the round constant
(local constant at offset `pfxLen + i`) plus the MDS mixing of the roots. -/
theorem rescue_constraints_characterization {F : Type} [Field F]
    (pfxLen : Nat) (mds : Nat → Nat → F) (lc lw rw bw : Nat → F) :
    ((∀ x ∈ RescueStepAGate.evaluate_unfiltered pfxLen mds lc lw rw bw, x = 0) ↔
      ∀ i, i < RESCUE_SPONGE_WIDTH →
        lw (RESCUE_SPONGE_WIDTH + i) ^ 5 = lw i ∧
        rw i = lc (pfxLen + i) +
          ∑ j ∈ Finset.range RESCUE_SPONGE_WIDTH,
            mds i j * lw (RESCUE_SPONGE_WIDTH + j)) := by
  simp only [RescueStepAGate.evaluate_unfiltered, RescueStepAGate.wire_acc,
    RescueStepAGate.wire_root, RESCUE_SPONGE_WIDTH, range_four, List.flatMap_cons,
    List.flatMap_nil, List.append_nil, List.mem_append, List.mem_cons,
    List.not_mem_nil, or_false, or_assoc, List.foldl_cons, List.foldl_nil,
    Finset.sum_range_succ, Finset.sum_range_zero, forall_eq_or_imp, forall_eq,
    sub_eq_zero]
  constructor
  · rintro ⟨ha, hb, hc, hd, he, hf, hg, hh⟩ i hi
    interval_cases i <;> refine ⟨by assumption, ?_⟩ <;>
      [rw [← hb]; rw [← hd]; rw [← hf]; rw [← hh]] <;> ring
  · intro hall
    have h0 := hall 0 (by norm_num)
    have h1 := hall 1 (by norm_num)
    have h2 := hall 2 (by norm_num)
    have h3 := hall 3 (by norm_num)
    refine ⟨h0.1, ?_, h1.1, ?_, h2.1, ?_, h3.1, ?_⟩ <;>
      [rw [h0.2]; rw [h1.2]; rw [h2.2]; rw [h3.2]] <;> ring

/-- C5: a limb's quartic residual (entry `1 + k` of the accumulation gate's
native evaluation) is the additive identity exactly when the limb value lies
in `{0, 1, 2, 3}`; for any other field value it is nonzero. -/
theorem base4_range_check_soundness {F : Type} [Field F]
    (lc lw rw bw : Nat → F) (k : Nat) (hk : k < 7) :
    ((Base4SumGate.evaluate_unfiltered lc lw rw bw).getD (1 + k) 0 = 0 ↔
      lw (2 + k) = 0 ∨ lw (2 + k) = 1 ∨ lw (2 + k) = 2 ∨ lw (2 + k) = 3) := by
  interval_cases k <;>
    simp [Base4SumGate.evaluate_unfiltered_eq, mul_eq_zero, sub_eq_zero, or_assoc]

/-- C5, witnessed at a concrete input. -/
theorem base4_range_check_soundness_witness :
    0 < 7 ∧
      ((Base4SumGate.evaluate_unfiltered lwC lwC lwC lwC).getD (1 + 0) 0 = 0 ↔
        lwC (2 + 0) = 0 ∨ lwC (2 + 0) = 1 ∨ lwC (2 + 0) = 2 ∨ lwC (2 + 0) = 3) :=
  ⟨by norm_num, base4_range_check_soundness lwC lwC lwC lwC 0 (by norm_num)⟩

/-- C6: the buffer gate declares zero constants and zero degree, returns the
empty constraint sequence in both evaluation modes, has no dependencies, and
generates an empty partial witness. -/
theorem buffer_noop {F : Type} [Field F] (lc lw rw bw : Nat → F)
    (lce lwe rwe bwe : Nat → Expr F) (constants : Nat → Nat → F)
    (witness : PartialWitness F) :
    BufferGate.num_constants = 0 ∧ BufferGate.degree = 0 ∧
      BufferGate.evaluate_unfiltered lc lw rw bw = [] ∧
      BufferGate.evaluate_unfiltered_recursively lce lwe rwe bwe = [] ∧
      BufferGate.dependencies = [] ∧
      BufferGate.generate constants witness = PartialWitness.new :=
  ⟨rfl, rfl, rfl, rfl, rfl, rfl⟩

/-- C9: the accumulation gate's native evaluation reads only local wire
slots 0 through 8 — any two inputs agreeing there produce equal outputs,
whatever the constants and the right/below rows — and the output always has
exactly 8 entries: the accumulator-recurrence residual first, then the seven
limb range residuals in limb order. -/
theorem base4_local_only_and_shape {F : Type} [Field F]
    (lc lw rw bw lc2 lw2 rw2 bw2 : Nat → F)
    (h : ∀ i, i < 9 → lw i = lw2 i) :
    Base4SumGate.evaluate_unfiltered lc lw rw bw =
        Base4SumGate.evaluate_unfiltered lc2 lw2 rw2 bw2 ∧
      (Base4SumGate.evaluate_unfiltered lc lw rw bw).length = 8 ∧
      Base4SumGate.evaluate_unfiltered lc lw rw bw =
        (List.foldl (fun acc limb => quadruple acc + limb) (lw 0)
            [lw 2, lw 3, lw 4, lw 5, lw 6, lw 7, lw 8] - lw 1) ::
          [lw 2, lw 3, lw 4, lw 5, lw 6, lw 7, lw 8].map (fun x =>
            x * (x - 1) * (x - 2) * (x - 3)) := by
  refine ⟨?_, ?_, ?_⟩
  · simp only [Base4SumGate.evaluate_unfiltered_eq, h 0 (by norm_num),
      h 1 (by norm_num), h 2 (by norm_num), h 3 (by norm_num), h 4 (by norm_num),
      h 5 (by norm_num), h 6 (by norm_num), h 7 (by norm_num), h 8 (by norm_num)]
  · simp [Base4SumGate.evaluate_unfiltered_eq]
  · simp [Base4SumGate.evaluate_unfiltered_eq]

/-- C9, witnessed at a concrete input. -/
theorem base4_local_only_and_shape_witness :
    (∀ i, i < 9 → lwC i = lwC i) ∧
      (Base4SumGate.evaluate_unfiltered lwC lwC lwC lwC =
          Base4SumGate.evaluate_unfiltered lwC lwC lwC lwC ∧
        (Base4SumGate.evaluate_unfiltered lwC lwC lwC lwC).length = 8 ∧
        Base4SumGate.evaluate_unfiltered lwC lwC lwC lwC =
          (List.foldl (fun acc limb => quadruple acc + limb) (lwC 0)
              [lwC 2, lwC 3, lwC 4, lwC 5, lwC 6, lwC 7, lwC 8] - lwC 1) ::
            [lwC 2, lwC 3, lwC 4, lwC 5, lwC 6, lwC 7, lwC 8].map (fun x =>
              x * (x - 1) * (x - 2) * (x - 3))) :=
  ⟨fun _i _hi => rfl,
    base4_local_only_and_shape lwC lwC lwC lwC lwC lwC lwC lwC (fun _i _hi => rfl)⟩


lemma PartialWitness.get_wire_cons {F : Type} (w' : Wire) (v : F)
    (pw : PartialWitness F) (w : Wire) :
    PartialWitness.get_wire ((w', v) :: pw) w =
      if w' = w then some v else pw.get_wire w := by
  by_cases hw : w' = w <;> simp [PartialWitness.get_wire, List.find?_cons, hw]

/-- C7: the Rescue generator is pure given its declared dependencies — any
two partial witnesses agreeing on the gate's own row's accumulator wires (its
`dependencies`) produce identical generator output, so no wire outside
`dependencies()` is read. -/
theorem rescue_generate_pure {F : Type} [Field F] (r5 : F → F) (pfxLen index : Nat)
    (mds : Nat → Nat → F) (constants : Nat → Nat → F)
    (w1 w2 : PartialWitness F)
    (h : ∀ w ∈ RescueStepAGate.dependencies index,
      w1.get_wire w = w2.get_wire w) :
    RescueStepAGate.generate r5 pfxLen index mds constants w1 =
      RescueStepAGate.generate r5 pfxLen index mds constants w2 := by
  have hmem : ∀ i, i < 4 →
      (⟨index, i⟩ : Wire) ∈ RescueStepAGate.dependencies index := by
    intro i hi
    simp only [RescueStepAGate.dependencies, RescueStepAGate.wire_acc,
      RESCUE_SPONGE_WIDTH, range_four, List.map_cons, List.map_nil, List.mem_cons]
    interval_cases i <;> simp
  have h0 := h ⟨index, 0⟩ (hmem 0 (by norm_num))
  have h1 := h ⟨index, 1⟩ (hmem 1 (by norm_num))
  have h2 := h ⟨index, 2⟩ (hmem 2 (by norm_num))
  have h3 := h ⟨index, 3⟩ (hmem 3 (by norm_num))
  simp only [RescueStepAGate.generate, RescueStepAGate.wire_acc,
    RESCUE_SPONGE_WIDTH, range_four, List.mapM_cons, List.mapM_nil, h0, h1, h2, h3]

/-- Witness gadgets over `ZMod 5`: a row-0 witness with the four accumulator
wires resolved to `1, 2, 3, 4`, the matching input function, an all-zero
constants/MDS table, and an arbitrary below-row view. -/
def pwC : PartialWitness (ZMod 5) :=
  [(⟨0, 0⟩, 1), (⟨0, 1⟩, 2), (⟨0, 2⟩, 3), (⟨0, 3⟩, 4)]

/-- The same witness with one extra, dependency-irrelevant wire. -/
def pwC2 : PartialWitness (ZMod 5) := pwC ++ [(⟨9, 9⟩, 0)]

/-- The accumulator values `pwC` resolves. -/
def insC : Nat → ZMod 5 := fun i => (i : ZMod 5) + 1

/-- An all-zero constants (and MDS) table. -/
def zeroC : Nat → Nat → ZMod 5 := fun _ _ => 0

/-- An all-zero below-row view. -/
def bwC : Nat → ZMod 5 := fun _ => 0

/-- C7, witnessed at a concrete input. -/
theorem rescue_generate_pure_witness :
    (∀ w ∈ RescueStepAGate.dependencies 0, pwC.get_wire w = pwC2.get_wire w) ∧
      RescueStepAGate.generate (fun x => x) 0 0 zeroC zeroC pwC =
        RescueStepAGate.generate (fun x => x) 0 0 zeroC zeroC pwC2 :=
  ⟨by decide,
    rescue_generate_pure (fun x => x) 0 0 zeroC zeroC pwC pwC2 (by decide)⟩

/-- C10: whenever the Rescue generator succeeds, the produced partial witness
assigns exactly the gate's own-row root wires `(index, WIDTH + i)` and the
next row's accumulator wires `(index + 1, i)`, interleaved in slot order —
every assigned wire lies on row `index` or `index + 1`, and no own-row
accumulator wire is written. -/
theorem rescue_generate_frame {F : Type} [Field F] (r5 : F → F) (pfxLen index : Nat)
    (mds : Nat → Nat → F) (constants : Nat → Nat → F)
    (witness pw' : PartialWitness F)
    (h : RescueStepAGate.generate r5 pfxLen index mds constants witness = some pw') :
    pw'.map Prod.fst = (List.range RESCUE_SPONGE_WIDTH).flatMap
        (fun i => [⟨index, RESCUE_SPONGE_WIDTH + i⟩, ⟨index + 1, i⟩]) ∧
      (∀ w ∈ pw'.map Prod.fst, w.gate = index ∨ w.gate = index + 1) ∧
      (∀ i, i < RESCUE_SPONGE_WIDTH → (⟨index, i⟩ : Wire) ∉ pw'.map Prod.fst) := by
  simp only [RescueStepAGate.generate, RescueStepAGate.wire_acc,
    RescueStepAGate.wire_root, RESCUE_SPONGE_WIDTH, range_four, List.mapM_cons,
    List.mapM_nil, Option.bind_eq_some, Option.some.injEq, bind, pure,
    List.foldl_cons, List.foldl_nil, List.map_cons, List.map_nil,
    PartialWitness.set_wire, PartialWitness.new, List.getD, List.nil_append,
    List.cons_append, List.append_nil] at h
  obtain ⟨a, ⟨v0, hv0, a2, ⟨v1, hv1, a3, ⟨v2, hv2, a4, ⟨v3, hv3, a5, h5, h45⟩,
    h34⟩, h23⟩, h12⟩, hpw⟩ := h
  subst h5
  subst h45
  subst h34
  subst h23
  subst h12
  subst hpw
  refine ⟨by simp [RESCUE_SPONGE_WIDTH, range_four], ?_, ?_⟩
  · intro w hw
    simp only [List.map_cons, List.map_nil, List.mem_cons, List.not_mem_nil,
      or_false] at hw
    rcases hw with rfl | rfl | rfl | rfl | rfl | rfl | rfl | rfl <;> simp
  · intro i hi
    simp only [RESCUE_SPONGE_WIDTH] at hi
    simp only [List.map_cons, List.map_nil, List.mem_cons, List.not_mem_nil,
      or_false, not_or, Wire.mk.injEq, not_and]
    omega

/-- The Rescue generator's output on the concrete witness `pwC` (identity
5th-root map, all-zero constants and MDS). -/
def pwOutC : PartialWitness (ZMod 5) :=
  [(⟨0, 4⟩, 1), (⟨1, 0⟩, 0), (⟨0, 5⟩, 2), (⟨1, 1⟩, 0),
    (⟨0, 6⟩, 3), (⟨1, 2⟩, 0), (⟨0, 7⟩, 4), (⟨1, 3⟩, 0)]

/-- C10, witnessed at a concrete input. -/
theorem rescue_generate_frame_witness :
    RescueStepAGate.generate (fun x => x) 0 0 zeroC zeroC pwC = some pwOutC ∧
      (pwOutC.map Prod.fst = (List.range RESCUE_SPONGE_WIDTH).flatMap
          (fun i => [⟨0, RESCUE_SPONGE_WIDTH + i⟩, ⟨0 + 1, i⟩]) ∧
        (∀ w ∈ pwOutC.map Prod.fst, w.gate = 0 ∨ w.gate = 0 + 1) ∧
        (∀ i, i < RESCUE_SPONGE_WIDTH → (⟨0, i⟩ : Wire) ∉ pwOutC.map Prod.fst)) :=
  ⟨by decide,
    rescue_generate_frame (fun x => x) 0 0 zeroC zeroC pwC pwOutC (by decide)⟩


/-- C4: on a witness whose own-row accumulator wires are resolved, and
assuming the field's `kth_root_u32 5` inverts the 5th power, the Rescue
generator succeeds, assigns each root wire a value whose 5th power is the
corresponding input, assigns each next-row accumulator wire the round
constant plus the MDS mixing of the roots, and the native constraints on the
witness extended with these assignments all evaluate to the additive
identity. -/
theorem rescue_generate_correctness {F : Type} [Field F]
    (r5 : F → F) (pfxLen index : Nat) (mds : Nat → Nat → F)
    (constants : Nat → Nat → F) (witness : PartialWitness F) (ins bw : Nat → F)
    (hr5 : ∀ x : F, r5 x ^ 5 = x)
    (hdeps : ∀ i, i < RESCUE_SPONGE_WIDTH →
      witness.get_wire ⟨index, RescueStepAGate.wire_acc i⟩ = some (ins i)) :
    (RescueStepAGate.generate r5 pfxLen index mds constants witness).isSome = true ∧
      ∀ pw', RescueStepAGate.generate r5 pfxLen index mds constants witness = some pw' →
        (∀ i, i < RESCUE_SPONGE_WIDTH →
          pw'.get_wire ⟨index, RescueStepAGate.wire_root i⟩ = some (r5 (ins i)) ∧
          r5 (ins i) ^ 5 = ins i ∧
          pw'.get_wire ⟨index + 1, RescueStepAGate.wire_acc i⟩ =
            some (constants index (pfxLen + i) +
              ∑ j ∈ Finset.range RESCUE_SPONGE_WIDTH, mds i j * r5 (ins j))) ∧
        (∀ x ∈ RescueStepAGate.evaluate_unfiltered pfxLen mds (constants index)
            (fun k => if k < RESCUE_SPONGE_WIDTH then ins k
              else r5 (ins (k - RESCUE_SPONGE_WIDTH)))
            (fun k => constants index (pfxLen + k) +
              ∑ j ∈ Finset.range RESCUE_SPONGE_WIDTH, mds k j * r5 (ins j))
            bw, x = 0) := by
  have h0 := hdeps 0 (by decide)
  have h1 := hdeps 1 (by decide)
  have h2 := hdeps 2 (by decide)
  have h3 := hdeps 3 (by decide)
  simp only [RescueStepAGate.wire_acc] at h0 h1 h2 h3
  have hgen : RescueStepAGate.generate r5 pfxLen index mds constants witness =
      some [(⟨index, 4⟩, r5 (ins 0)),
        (⟨index + 1, 0⟩, constants index (pfxLen + 0) + mds 0 0 * r5 (ins 0) +
          mds 0 1 * r5 (ins 1) + mds 0 2 * r5 (ins 2) + mds 0 3 * r5 (ins 3)),
        (⟨index, 5⟩, r5 (ins 1)),
        (⟨index + 1, 1⟩, constants index (pfxLen + 1) + mds 1 0 * r5 (ins 0) +
          mds 1 1 * r5 (ins 1) + mds 1 2 * r5 (ins 2) + mds 1 3 * r5 (ins 3)),
        (⟨index, 6⟩, r5 (ins 2)),
        (⟨index + 1, 2⟩, constants index (pfxLen + 2) + mds 2 0 * r5 (ins 0) +
          mds 2 1 * r5 (ins 1) + mds 2 2 * r5 (ins 2) + mds 2 3 * r5 (ins 3)),
        (⟨index, 7⟩, r5 (ins 3)),
        (⟨index + 1, 3⟩, constants index (pfxLen + 3) + mds 3 0 * r5 (ins 0) +
          mds 3 1 * r5 (ins 1) + mds 3 2 * r5 (ins 2) + mds 3 3 * r5 (ins 3))] := by
    simp only [RescueStepAGate.generate, RescueStepAGate.wire_acc,
      RESCUE_SPONGE_WIDTH, range_four, List.mapM_cons, List.mapM_nil,
      h0, h1, h2, h3]
    rfl
  constructor
  · rw [hgen]
    rfl
  · intro pw' h
    rw [hgen, Option.some.injEq] at h
    subst h
    constructor
    · intro i hi
      simp only [RESCUE_SPONGE_WIDTH] at hi
      interval_cases i <;>
        refine ⟨?_, hr5 _, ?_⟩ <;>
          simp [PartialWitness.get_wire_cons, RescueStepAGate.wire_root,
            RescueStepAGate.wire_acc, RESCUE_SPONGE_WIDTH, Wire.mk.injEq,
            Finset.sum_range_succ] <;> ring_nf
    · simp only [RescueStepAGate.evaluate_unfiltered, RescueStepAGate.wire_acc,
        RescueStepAGate.wire_root, RESCUE_SPONGE_WIDTH, range_four,
        List.flatMap_cons, List.flatMap_nil, List.append_nil, List.mem_append,
        List.mem_cons, List.not_mem_nil, or_false, or_assoc, List.foldl_cons,
        List.foldl_nil, forall_eq_or_imp, forall_eq, Finset.sum_range_succ,
        Finset.sum_range_zero]
      norm_num [hr5]
      refine ⟨?_, ?_, ?_, ?_⟩ <;> ring

/-- C4, witnessed at a concrete input. -/
theorem rescue_generate_correctness_witness :
    (∀ x : ZMod 5, x ^ 5 = x) ∧
      (∀ i, i < RESCUE_SPONGE_WIDTH →
        pwC.get_wire ⟨0, RescueStepAGate.wire_acc i⟩ = some (insC i)) ∧
      ((RescueStepAGate.generate (fun x => x) 0 0 zeroC zeroC pwC).isSome = true ∧
        ∀ pw', RescueStepAGate.generate (fun x => x) 0 0 zeroC zeroC pwC = some pw' →
          (∀ i, i < RESCUE_SPONGE_WIDTH →
            pw'.get_wire ⟨0, RescueStepAGate.wire_root i⟩ = some (insC i) ∧
            insC i ^ 5 = insC i ∧
            pw'.get_wire ⟨0 + 1, RescueStepAGate.wire_acc i⟩ =
              some (zeroC 0 (0 + i) +
                ∑ j ∈ Finset.range RESCUE_SPONGE_WIDTH, zeroC i j * insC j)) ∧
          (∀ x ∈ RescueStepAGate.evaluate_unfiltered 0 zeroC (zeroC 0)
              (fun k => if k < RESCUE_SPONGE_WIDTH then insC k
                else insC (k - RESCUE_SPONGE_WIDTH))
              (fun k => zeroC 0 (0 + k) +
                ∑ j ∈ Finset.range RESCUE_SPONGE_WIDTH, zeroC k j * insC j)
              bwC, x = 0)) :=
  ⟨by decide, by decide,
    rescue_generate_correctness (fun x => x) 0 0 zeroC zeroC pwC insC bwC
      (by decide) (by decide)⟩


lemma td_mul_le {sg R : Type} [CommSemiring R] {p q : MvPolynomial sg R} {a b : Nat}
    (hp : p.totalDegree ≤ a) (hq : q.totalDegree ≤ b) :
    (p * q).totalDegree ≤ a + b :=
  le_trans (MvPolynomial.totalDegree_mul p q) (add_le_add hp hq)

lemma td_add_le {sg R : Type} [CommSemiring R] {p q : MvPolynomial sg R} {a : Nat}
    (hp : p.totalDegree ≤ a) (hq : q.totalDegree ≤ a) :
    (p + q).totalDegree ≤ a :=
  le_trans (MvPolynomial.totalDegree_add p q) (max_le hp hq)

lemma td_sub_le {sg R : Type} [CommRing R] {p q : MvPolynomial sg R} {a : Nat}
    (hp : p.totalDegree ≤ a) (hq : q.totalDegree ≤ a) :
    (p - q).totalDegree ≤ a :=
  le_trans (MvPolynomial.totalDegree_sub p q) (max_le hp hq)

lemma td_pow_le {sg R : Type} [CommSemiring R] {p : MvPolynomial sg R} {a : Nat}
    (n : Nat) (hp : p.totalDegree ≤ a) :
    (p ^ n).totalDegree ≤ n * a :=
  le_trans (MvPolynomial.totalDegree_pow p n) (Nat.mul_le_mul_left n hp)

lemma td_natCast {sg R : Type} [CommSemiring R] (n : Nat) :
    ((n : MvPolynomial sg R)).totalDegree = 0 := by
  rw [← map_natCast (MvPolynomial.C : R →+* MvPolynomial sg R) n]
  exact MvPolynomial.totalDegree_C _

lemma td_quadruple_le {sg R : Type} [CommRing R] {p : MvPolynomial sg R} {a : Nat}
    (hp : p.totalDegree ≤ a) : (quadruple p).totalDegree ≤ a := by
  unfold quadruple double
  exact td_add_le (td_add_le hp hp) (td_add_le hp hp)

lemma getD_totalDegree_le {sg R : Type} [CommSemiring R]
    (l : List (MvPolynomial sg R)) (d : Nat)
    (h : ∀ p ∈ l, p.totalDegree ≤ d) (i : Nat) :
    (l.getD i 0).totalDegree ≤ d := by
  by_cases hi : i < l.length
  · rw [List.getD_eq_getElem l 0 hi]
    exact h _ (List.getElem_mem hi)
  · rw [List.getD_eq_default l 0 (le_of_not_lt hi)]
    simp [MvPolynomial.totalDegree_zero]

/-- C8: instantiating each gate's native evaluation at distinct polynomial
variables for the local and right wire slots (with the constants and the MDS
entries as coefficients), every returned entry has total degree at most the
gate's declared bound: 4 for the accumulation gate, `degree() = 5` for the
Rescue step-A gate, and `degree() = 0` for the buffer gate. -/
theorem gate_degree_bounds (lc : Nat → ℤ) (m : Nat → Nat → ℤ) (pfxLen i : Nat) :
    ((Base4SumGate.evaluate_unfiltered (fun k => MvPolynomial.C (lc k))
        (fun k => MvPolynomial.X (Sum.inl k)) (fun k => MvPolynomial.X (Sum.inr k))
        (fun k => MvPolynomial.X (Sum.inr k))).getD i 0).totalDegree ≤ 4 ∧
      ((RescueStepAGate.evaluate_unfiltered pfxLen (fun a b => MvPolynomial.C (m a b))
        (fun k => MvPolynomial.C (lc k)) (fun k => MvPolynomial.X (Sum.inl k))
        (fun k => MvPolynomial.X (Sum.inr k))
        (fun k => MvPolynomial.X (Sum.inr k))).getD i 0).totalDegree ≤
        RescueStepAGate.degree ∧
      ((BufferGate.evaluate_unfiltered (fun k => MvPolynomial.C (lc k))
        (fun k => MvPolynomial.X (Sum.inl k)) (fun k => MvPolynomial.X (Sum.inr k))
        (fun k => (MvPolynomial.X (Sum.inr k) : MvPolynomial (Nat ⊕ Nat) ℤ))).getD
          i 0).totalDegree ≤ BufferGate.degree := by
  have hX : ∀ v : Nat ⊕ Nat,
      (MvPolynomial.X v : MvPolynomial (Nat ⊕ Nat) ℤ).totalDegree ≤ 1 :=
    fun v => le_of_eq (MvPolynomial.totalDegree_X v)
  have hC : ∀ r : ℤ,
      (MvPolynomial.C r : MvPolynomial (Nat ⊕ Nat) ℤ).totalDegree ≤ 0 :=
    fun r => le_of_eq (MvPolynomial.totalDegree_C r)
  have hone : (1 : MvPolynomial (Nat ⊕ Nat) ℤ).totalDegree ≤ 0 :=
    le_of_eq MvPolynomial.totalDegree_one
  have hN : ∀ n : Nat, ((n : Nat) : MvPolynomial (Nat ⊕ Nat) ℤ).totalDegree ≤ 0 :=
    fun n => le_of_eq (td_natCast n)
  have hfac : ∀ (v : Nat ⊕ Nat) (n : Nat),
      ((MvPolynomial.X v -
        ((n : Nat) : MvPolynomial (Nat ⊕ Nat) ℤ))).totalDegree ≤ 1 :=
    fun v n => td_sub_le (hX v) (le_trans (hN n) (by norm_num))
  have hres : ∀ v : Nat ⊕ Nat,
      ((1 : MvPolynomial (Nat ⊕ Nat) ℤ)
        * (MvPolynomial.X v - ((0 : Nat) : MvPolynomial (Nat ⊕ Nat) ℤ))
        * (MvPolynomial.X v - ((1 : Nat) : MvPolynomial (Nat ⊕ Nat) ℤ))
        * (MvPolynomial.X v - ((2 : Nat) : MvPolynomial (Nat ⊕ Nat) ℤ))
        * (MvPolynomial.X v - ((3 : Nat) : MvPolynomial (Nat ⊕ Nat) ℤ))).totalDegree
        ≤ 4 :=
    fun v =>
      td_mul_le (td_mul_le (td_mul_le (td_mul_le hone (hfac v 0)) (hfac v 1))
        (hfac v 2)) (hfac v 3)
  have hstep : ∀ {p : MvPolynomial (Nat ⊕ Nat) ℤ} {v : Nat ⊕ Nat},
      p.totalDegree ≤ 1 → (quadruple p + MvPolynomial.X v).totalDegree ≤ 1 :=
    fun hp => td_add_le (td_quadruple_le hp) (hX _)
  have hacc : ∀ v : Nat ⊕ Nat,
      (quadruple (quadruple (quadruple (quadruple (quadruple (quadruple (quadruple
          (MvPolynomial.X (Sum.inl 0) : MvPolynomial (Nat ⊕ Nat) ℤ)
          + MvPolynomial.X (Sum.inl 2)) + MvPolynomial.X (Sum.inl 3))
          + MvPolynomial.X (Sum.inl 4)) + MvPolynomial.X (Sum.inl 5))
          + MvPolynomial.X (Sum.inl 6)) + MvPolynomial.X (Sum.inl 7))
          + MvPolynomial.X (Sum.inl 8) - MvPolynomial.X v).totalDegree ≤ 4 :=
    fun v =>
      td_sub_le
        (le_trans (hstep (hstep (hstep (hstep (hstep (hstep (hstep (hX _))))))))
          (by norm_num))
        (le_trans (hX v) (by norm_num))
  have hsbox : ∀ v w : Nat ⊕ Nat,
      ((MvPolynomial.X v : MvPolynomial (Nat ⊕ Nat) ℤ) ^ 5 -
        MvPolynomial.X w).totalDegree ≤ 5 :=
    fun v w =>
      td_sub_le (le_trans (td_pow_le 5 (hX v)) (by norm_num))
        (le_trans (hX w) (by norm_num))
  have hmix : ∀ (c c0 c1 c2 c3 : ℤ) (v0 v1 v2 v3 w : Nat ⊕ Nat),
      ((MvPolynomial.C c : MvPolynomial (Nat ⊕ Nat) ℤ)
        + MvPolynomial.C c0 * MvPolynomial.X v0
        + MvPolynomial.C c1 * MvPolynomial.X v1
        + MvPolynomial.C c2 * MvPolynomial.X v2
        + MvPolynomial.C c3 * MvPolynomial.X v3
        - MvPolynomial.X w).totalDegree ≤ 5 := by
    intro c c0 c1 c2 c3 v0 v1 v2 v3 w
    have hterm : ∀ (r : ℤ) (v : Nat ⊕ Nat),
        ((MvPolynomial.C r : MvPolynomial (Nat ⊕ Nat) ℤ) *
          MvPolynomial.X v).totalDegree ≤ 1 :=
      fun r v => le_trans (td_mul_le (hC r) (hX v)) (by norm_num)
    have hsum : ((MvPolynomial.C c : MvPolynomial (Nat ⊕ Nat) ℤ)
        + MvPolynomial.C c0 * MvPolynomial.X v0
        + MvPolynomial.C c1 * MvPolynomial.X v1
        + MvPolynomial.C c2 * MvPolynomial.X v2
        + MvPolynomial.C c3 * MvPolynomial.X v3).totalDegree ≤ 1 :=
      td_add_le (td_add_le (td_add_le (td_add_le
        (le_trans (hC c) zero_le_one) (hterm c0 v0)) (hterm c1 v1))
        (hterm c2 v2)) (hterm c3 v3)
    exact td_sub_le (le_trans hsum (by norm_num)) (le_trans (hX w) (by norm_num))
  refine ⟨getD_totalDegree_le _ _ ?_ i, getD_totalDegree_le _ _ ?_ i,
    getD_totalDegree_le _ _ ?_ i⟩
  · simp only [Base4SumGate.evaluate_unfiltered, Base4SumGate.WIRE_ACC_OLD,
      Base4SumGate.WIRE_ACC_NEW, Base4SumGate.WIRE_LIMB_0, Base4SumGate.NUM_LIMBS,
      range_seven, range_four, List.map_cons, List.map_nil, List.foldl_cons,
      List.foldl_nil, List.mem_cons, List.not_mem_nil, or_false]
    rintro p (rfl | rfl | rfl | rfl | rfl | rfl | rfl | rfl)
    · exact hacc _
    all_goals exact hres _
  · simp only [RescueStepAGate.evaluate_unfiltered, RescueStepAGate.wire_acc,
      RescueStepAGate.wire_root, RescueStepAGate.degree, RESCUE_SPONGE_WIDTH,
      range_four, List.flatMap_cons, List.flatMap_nil, List.append_nil,
      List.mem_append, List.mem_cons, List.not_mem_nil, or_false, or_assoc,
      List.foldl_cons, List.foldl_nil]
    rintro p (rfl | rfl | rfl | rfl | rfl | rfl | rfl | rfl)
    · exact hsbox _ _
    · exact hmix _ _ _ _ _ _ _ _ _ _
    · exact hsbox _ _
    · exact hmix _ _ _ _ _ _ _ _ _ _
    · exact hsbox _ _
    · exact hmix _ _ _ _ _ _ _ _ _ _
    · exact hsbox _ _
    · exact hmix _ _ _ _ _ _ _ _ _ _
  · intro p hp
    simp [BufferGate.evaluate_unfiltered] at hp


end Plonky
